import Mathlib

/-!
Shallow embedding of the RemoveDuplicateImages pipeline
(`remove_duplicate_images.py` and `utils.py`).

Paths are modelled as records carrying their parent directory, stem and
extension (mirroring `pathlib.Path.parent`, `.stem`, `.suffix`).  The
per-directory signature map built by `process_directory_images` and the
global `images_id` map are modelled as insertion-ordered association lists,
matching Python `dict` semantics (`defaultdict(list)` with `append` /
`extend`).  The fingerprint provider (`utils.sign_image`) is an opaque
function returning `Option Fingerprint`; `none` models a raised exception
(caught and logged at `remove_duplicate_images.py:80-89`).
-/

namespace RemoveDuplicateImages

/-- A directory path, compared by equality (as `pathlib.Path` values are in
`to_move.parent != output_directory` and `output_directory not in dir_list`). -/
abbrev Dir := String

/-- An opaque, equality-comparable image fingerprint (`imagehash.phash` result). -/
abbrev Fingerprint := Nat

/-- A file path: parent directory, stem and extension.
`pathlib`: `name = stem ++ ext`, `with_stem` replaces `stem` keeping `ext`. -/
structure ImageRecord where
  parent : Dir
  stem : String
  ext : String
deriving DecidableEq, Repr

/-- Insertion-ordered map from fingerprints to lists of image paths, the model
of Python `Dict[int, List[pathlib.Path]]` used for both the per-directory maps
and the global `images_id`. -/
abbrev SigMap := List (Fingerprint × List ImageRecord)

/-- `m[s].extend(imgs)` on a `defaultdict(list)`: extend the entry for key `s`
in place if present (keeping its position), otherwise append a new entry at
the end (Python dict insertion order). -/
def appendAt : SigMap → Fingerprint → List ImageRecord → SigMap
  | [], s, imgs => [(s, imgs)]
  | (t, l) :: rest, s, imgs =>
      if t = s then (t, l ++ imgs) :: rest else (t, l) :: appendAt rest s imgs

/-- `m[s]` lookup on the association list (first entry with the key; on a
`defaultdict`, a missing key reads as the empty list). -/
def lookupSig : SigMap → Fingerprint → List ImageRecord
  | [], _ => []
  | (t, l) :: rest, s => if t = s then l else lookupSig rest s

/-- Concatenation of the values of all entries of `m` whose key is `s`; equals
`lookupSig m s` when keys are unique. -/
def entriesAt : SigMap → Fingerprint → List ImageRecord
  | [], _ => []
  | (t, l) :: rest, s => (if t = s then l else []) ++ entriesAt rest s

/-- The keys of a signature map, in insertion order. -/
def sigKeys (m : SigMap) : List Fingerprint := m.map Prod.fst

/-- One iteration of the result loop of `process_directory_images`
(`remove_duplicate_images.py:78-89`): a raised exception (`none`) drops the
item, a computed signature appends the image to its group. -/
def signStep (fp : ImageRecord → Option Fingerprint) (m : SigMap)
    (img : ImageRecord) : SigMap :=
  match fp img with
  | none => m
  | some s => appendAt m s [img]

/-- `process_directory_images` (`remove_duplicate_images.py:35-91`): fold the
directory's candidate files (given in completion order, which is arbitrary)
into a signature map, dropping items whose fingerprint computation fails. -/
def process_directory_images (fp : ImageRecord → Option Fingerprint)
    (candidates : List ImageRecord) : SigMap :=
  candidates.foldl (signStep fp) []

/-- The merge body of `main` (`remove_duplicate_images.py:236-237`):
`for (signature, image_files) in signature_map.items():
images_id[signature].extend(image_files)`. -/
def extendAll (acc : SigMap) (m : SigMap) : SigMap :=
  m.foldl (fun a p => appendAt a p.1 p.2) acc

/-- The sequential merge of the per-directory maps, in `dir_list` order
(`remove_duplicate_images.py:230-237`; the futures list is iterated in
submission order). -/
def mergeMaps (maps : List SigMap) : SigMap :=
  maps.foldl extendAll []

/-- The global `images_id` index: scan every directory of `dir_list` and merge
the per-directory signature maps in that order. -/
def pipelineIndex (fp : ImageRecord → Option Fingerprint)
    (listDir : Dir → List ImageRecord) (dir_list : List Dir) : SigMap :=
  mergeMaps (dir_list.map fun d => process_directory_images fp (listDir d))

/-- `dir_list` as built by `main` (`remove_duplicate_images.py:184-201`):
`dir_list.insert(0, main_directory)` then
`if output_directory not in dir_list: dir_list.insert(0, output_directory)`. -/
def resolvedDirList (main_directory : Dir) (directories : List Dir)
    (output_directory : Dir) : List Dir :=
  let dir_list := main_directory :: directories
  if output_directory ∈ dir_list then dir_list else output_directory :: dir_list

/-- One iteration of the planning loop (`remove_duplicate_images.py:240-246`):
`to_move = image_files[0]; if to_move.parent != output_directory:
files_to_move.append(image_files[0]); duplicate_files.extend(image_files[1:])`.
The accumulator is the pair `(files_to_move, duplicate_files)`. -/
def planStep (output_directory : Dir)
    (acc : List ImageRecord × List ImageRecord) (image_files : List ImageRecord) :
    List ImageRecord × List ImageRecord :=
  match image_files with
  | [] => acc
  | to_move :: rest =>
      if to_move.parent ≠ output_directory then (acc.1 ++ [to_move], acc.2 ++ rest)
      else acc

/-- The full planning loop over `images_id.items()`, producing
`(files_to_move, duplicate_files)`. -/
def planMoves (output_directory : Dir) (images_id : SigMap) :
    List ImageRecord × List ImageRecord :=
  images_id.foldl (fun acc p => planStep output_directory acc p.2) ([], [])

/-- The environment and arguments of one run of `main`: `argc`/parsed CLI
values, plus the file-system and fingerprint capabilities.  `fp img = none`
models a fingerprint exception; `moveFails`/`deleteFails` model per-item
`shutil.move`/`os.remove` exceptions (caught in `utils.move_files` and
`utils.remove_files`). -/
structure Config where
  argc : Nat
  main_directory : Dir
  directories : List Dir
  output : Option Dir
  is_dir : Dir → Bool
  path_exists : Dir → Bool
  listDir : Dir → List ImageRecord
  fp : ImageRecord → Option Fingerprint
  moveFails : ImageRecord → Bool
  deleteFails : ImageRecord → Bool

/-- The observable outcome of a run of `main`: the returned exit code and the
file-system mutations that were performed (directories created by `mkdir`,
files successfully moved and deleted, directories removed by `shutil.rmtree`). -/
structure RunResult where
  exitCode : Int
  created : List Dir
  moved : List ImageRecord
  deleted : List ImageRecord
  removedDirs : List Dir
deriving DecidableEq, Repr

/-- `main` (`remove_duplicate_images.py:94-281`): argument-count check
(return `-1`), directory-existence check (return `-2`, before any mutation),
output-directory resolution and `dir_list` insertion, optional `mkdir`, the
scan/merge/plan pipeline, the move and delete phases (per-item failures
dropped), and the cleanup `for directory in dir_list[1:]: shutil.rmtree(...)`. -/
def main (cfg : Config) : RunResult :=
  if cfg.argc < 3 then ⟨-1, [], [], [], []⟩
  else
    let dir_list0 := cfg.main_directory :: cfg.directories
    if dir_list0.all cfg.is_dir = false then ⟨-2, [], [], [], []⟩
    else
      let output_directory := cfg.output.getD cfg.main_directory
      let dir_list := if output_directory ∈ dir_list0 then dir_list0
                      else output_directory :: dir_list0
      let created := if cfg.path_exists output_directory then ([] : List Dir)
                     else [output_directory]
      let images_id := pipelineIndex cfg.fp cfg.listDir dir_list
      let pl := planMoves output_directory images_id
      ⟨0, created,
        pl.1.filter (fun f => !cfg.moveFails f),
        pl.2.filter (fun f => !cfg.deleteFails f),
        dir_list.tail⟩

/-- A file-system action performed by `utils.move_file_to_dir`. -/
inductive MoveAction where
  | rename (src dst : ImageRecord)
  | move (src : ImageRecord) (dst_dir : Dir)
deriving DecidableEq, Repr

/-- `utils.move_file_to_dir` (`utils.py:63-92`): if a file named
`src_file.name` already exists in `dst_dir` and `replace` is false, first
rename the source in its own directory to `stem ++ str(randint(0, 10))`
(keeping the extension, as `with_stem` does), then `shutil.move` it into
`dst_dir`; otherwise move it directly.  `rand` models the random draw;
`rand % 11` is the inclusive range `0..10` of `random.randint(0, 10)`. -/
def move_file_to_dir (is_file : ImageRecord → Bool) (src_file : ImageRecord)
    (dst_dir : Dir) (replace : Bool) (rand : Nat) : List MoveAction :=
  let dst_file : ImageRecord := ⟨dst_dir, src_file.stem, src_file.ext⟩
  if is_file dst_file && !replace then
    let new_name := src_file.stem ++ toString (rand % 11)
    let renamed : ImageRecord := ⟨src_file.parent, new_name, src_file.ext⟩
    [MoveAction.rename src_file renamed, MoveAction.move renamed dst_dir]
  else
    [MoveAction.move src_file dst_dir]

/-- Sample image in directory `dirA` (used to instantiate theorems on
concrete inputs). -/
def sampleRecA : ImageRecord := ⟨"dirA", "cat", ".jpg"⟩

/-- Sample image in directory `dirB`, a pixel-duplicate of `sampleRecA`
under `sampleFp`. -/
def sampleRecB : ImageRecord := ⟨"dirB", "cat2", ".jpg"⟩

/-- Sample unreadable file: `sampleFp` fails on it. -/
def sampleRecBad : ImageRecord := ⟨"dirA", "bad", ".jpg"⟩

/-- Sample fingerprint provider: fails (raises) on stem `bad`, assigns
fingerprint `1` to the two cat images and `2` to everything else. -/
def sampleFp (r : ImageRecord) : Option Fingerprint :=
  if r.stem = "bad" then none
  else if r.stem = "cat" then some 1
  else if r.stem = "cat2" then some 1
  else some 2

/-- Sample directory listing capability for directories `dirA` and `dirB`. -/
def sampleListDir (d : Dir) : List ImageRecord :=
  if d = "dirA" then [sampleRecA, sampleRecBad]
  else if d = "dirB" then [sampleRecB]
  else []

/-! ### Lemmas about the signature-map operations -/

theorem lookupSig_appendAt (m : SigMap) (s t : Fingerprint) (imgs : List ImageRecord) :
    lookupSig (appendAt m s imgs) t =
      if t = s then lookupSig m t ++ imgs else lookupSig m t := by
  induction m with
  | nil =>
      by_cases h : t = s
      · subst h; simp [appendAt, lookupSig]
      · simp [appendAt, lookupSig, h, Ne.symm h]
  | cons p rest ih =>
      obtain ⟨u, l⟩ := p
      by_cases hu : u = s
      · subst hu
        by_cases ht : t = u
        · subst ht; simp [appendAt, lookupSig]
        · simp [appendAt, lookupSig, ht, Ne.symm ht]
      · by_cases ht : t = u
        · subst ht
          simp [appendAt, lookupSig, hu, Ne.symm hu]
        · simp [appendAt, lookupSig, hu, ht, Ne.symm ht, ih]

theorem lookupSig_extendAll (m acc : SigMap) (s : Fingerprint) :
    lookupSig (extendAll acc m) s = lookupSig acc s ++ entriesAt m s := by
  induction m generalizing acc with
  | nil => simp [extendAll, entriesAt]
  | cons p rest ih =>
      obtain ⟨t, l⟩ := p
      have hstep : extendAll acc ((t, l) :: rest) = extendAll (appendAt acc t l) rest := rfl
      rw [hstep, ih, lookupSig_appendAt]
      by_cases h : s = t
      · subst h
        simp [entriesAt, List.append_assoc]
      · simp [entriesAt, h, Ne.symm h]

theorem lookupSig_mergeMaps (maps : List SigMap) (s : Fingerprint) :
    lookupSig (mergeMaps maps) s = (maps.map fun m => entriesAt m s).flatten := by
  suffices h : ∀ acc, lookupSig (maps.foldl extendAll acc) s =
      lookupSig acc s ++ (maps.map fun m => entriesAt m s).flatten by
    have := h []
    simpa [mergeMaps, lookupSig] using this
  induction maps with
  | nil => intro acc; simp
  | cons m rest ih =>
      intro acc
      simp only [List.foldl_cons, ih, lookupSig_extendAll, List.map_cons,
        List.flatten_cons, List.append_assoc]

theorem entriesAt_eq_nil_of_not_mem (m : SigMap) (s : Fingerprint)
    (h : s ∉ sigKeys m) : entriesAt m s = [] := by
  induction m with
  | nil => rfl
  | cons p rest ih =>
      obtain ⟨t, l⟩ := p
      simp only [sigKeys, List.map_cons, List.mem_cons, not_or] at h
      have ht : t ≠ s := fun hh => h.1 hh.symm
      simp [entriesAt, ht, ih (by simpa [sigKeys] using h.2)]

theorem entriesAt_eq_lookupSig (m : SigMap) (s : Fingerprint)
    (h : (sigKeys m).Nodup) : entriesAt m s = lookupSig m s := by
  induction m with
  | nil => rfl
  | cons p rest ih =>
      obtain ⟨t, l⟩ := p
      simp only [sigKeys, List.map_cons, List.nodup_cons] at h
      by_cases ht : t = s
      · subst ht
        have : entriesAt rest t = [] :=
          entriesAt_eq_nil_of_not_mem rest t (by simpa [sigKeys] using h.1)
        simp [entriesAt, lookupSig, this]
      · simp [entriesAt, lookupSig, ht, ih (by simpa [sigKeys] using h.2)]

theorem sigKeys_appendAt_of_mem (m : SigMap) (s : Fingerprint)
    (imgs : List ImageRecord) (hmem : s ∈ sigKeys m) :
    sigKeys (appendAt m s imgs) = sigKeys m := by
  induction m with
  | nil => simp [sigKeys] at hmem
  | cons p rest ih =>
      obtain ⟨t, l⟩ := p
      by_cases ht : t = s
      · subst ht
        simp [appendAt, sigKeys]
      · have hrest : s ∈ sigKeys rest := by
          simp only [sigKeys, List.map_cons, List.mem_cons] at hmem
          exact hmem.resolve_left (Ne.symm ht)
        have ihh := ih hrest
        simp only [sigKeys] at ihh
        simp [appendAt, sigKeys, ht, ihh]

theorem sigKeys_appendAt_of_not_mem (m : SigMap) (s : Fingerprint)
    (imgs : List ImageRecord) (hmem : s ∉ sigKeys m) :
    sigKeys (appendAt m s imgs) = sigKeys m ++ [s] := by
  induction m with
  | nil => simp [appendAt, sigKeys]
  | cons p rest ih =>
      obtain ⟨t, l⟩ := p
      simp only [sigKeys, List.map_cons, List.mem_cons, not_or] at hmem
      have ht : ¬ t = s := fun hh => hmem.1 (Eq.symm hh)
      have ihh := ih (by simpa [sigKeys] using hmem.2)
      simp only [sigKeys] at ihh
      simp [appendAt, sigKeys, ht, ihh]

theorem nodup_sigKeys_appendAt (m : SigMap) (s : Fingerprint)
    (imgs : List ImageRecord) (h : (sigKeys m).Nodup) :
    (sigKeys (appendAt m s imgs)).Nodup := by
  by_cases hmem : s ∈ sigKeys m
  · rw [sigKeys_appendAt_of_mem m s imgs hmem]
    exact h
  · rw [sigKeys_appendAt_of_not_mem m s imgs hmem]
    exact List.Nodup.append h (List.nodup_singleton s)
      (by simpa [List.disjoint_singleton] using hmem)

theorem nodup_sigKeys_foldl_signStep (fp : ImageRecord → Option Fingerprint)
    (cs : List ImageRecord) (acc : SigMap) (h : (sigKeys acc).Nodup) :
    (sigKeys (cs.foldl (signStep fp) acc)).Nodup := by
  induction cs generalizing acc with
  | nil => simpa using h
  | cons c rest ih =>
      simp only [List.foldl_cons]
      apply ih
      unfold signStep
      cases fp c with
      | none => exact h
      | some s => exact nodup_sigKeys_appendAt acc s [c] h

theorem nodup_sigKeys_process (fp : ImageRecord → Option Fingerprint)
    (cs : List ImageRecord) :
    (sigKeys (process_directory_images fp cs)).Nodup :=
  nodup_sigKeys_foldl_signStep fp cs [] (by simp [sigKeys])

theorem lookupSig_foldl_signStep (fp : ImageRecord → Option Fingerprint)
    (cs : List ImageRecord) (acc : SigMap) (s : Fingerprint) :
    lookupSig (cs.foldl (signStep fp) acc) s =
      lookupSig acc s ++ cs.filter (fun i => decide (fp i = some s)) := by
  induction cs generalizing acc with
  | nil => simp
  | cons c rest ih =>
      simp only [List.foldl_cons, ih]
      unfold signStep
      cases hc : fp c with
      | none => simp [hc, List.filter_cons]
      | some t =>
          rw [lookupSig_appendAt]
          by_cases hst : s = t
          · subst hst
            simp [hc, List.filter_cons, List.append_assoc]
          · have hne : ¬ fp c = some s := by
              rw [hc]
              exact fun hh => hst (Eq.symm (Option.some.inj hh))
            simp [hst, List.filter_cons, hne]

theorem lookupSig_process (fp : ImageRecord → Option Fingerprint)
    (cs : List ImageRecord) (s : Fingerprint) :
    lookupSig (process_directory_images fp cs) s =
      cs.filter (fun i => decide (fp i = some s)) := by
  unfold process_directory_images
  rw [lookupSig_foldl_signStep]
  simp [lookupSig]

theorem lookupSig_pipelineIndex (fp : ImageRecord → Option Fingerprint)
    (listDir : Dir → List ImageRecord) (dir_list : List Dir) (s : Fingerprint) :
    lookupSig (pipelineIndex fp listDir dir_list) s =
      (dir_list.map fun d =>
        lookupSig (process_directory_images fp (listDir d)) s).flatten := by
  unfold pipelineIndex
  rw [lookupSig_mergeMaps]
  congr 1
  simp only [List.map_map]
  apply List.map_congr_left
  intro d _
  exact entriesAt_eq_lookupSig _ s (nodup_sigKeys_process fp (listDir d))

theorem mem_lookupSig_pipelineIndex (fp : ImageRecord → Option Fingerprint)
    (listDir : Dir → List ImageRecord) (dir_list : List Dir) (s : Fingerprint)
    (x : ImageRecord) :
    x ∈ lookupSig (pipelineIndex fp listDir dir_list) s ↔
      fp x = some s ∧ ∃ d ∈ dir_list, x ∈ listDir d := by
  rw [lookupSig_pipelineIndex]
  simp only [List.mem_flatten, List.mem_map]
  constructor
  · rintro ⟨l, ⟨d, hd, rfl⟩, hx⟩
    rw [lookupSig_process] at hx
    simp only [List.mem_filter, decide_eq_true_eq] at hx
    exact ⟨hx.2, d, hd, hx.1⟩
  · rintro ⟨hfp, d, hd, hx⟩
    refine ⟨lookupSig (process_directory_images fp (listDir d)) s, ⟨d, hd, rfl⟩, ?_⟩
    rw [lookupSig_process]
    simp [List.mem_filter, hx, hfp]

theorem lookupSig_of_mem (m : SigMap) (p : Fingerprint × List ImageRecord)
    (hp : p ∈ m) (h : (sigKeys m).Nodup) : lookupSig m p.1 = p.2 := by
  induction m with
  | nil => simp at hp
  | cons q rest ih =>
      obtain ⟨t, l⟩ := q
      simp only [List.mem_cons] at hp
      simp only [sigKeys, List.map_cons, List.nodup_cons] at h
      rcases hp with rfl | hp
      · simp [lookupSig]
      · have hne : ¬ t = p.1 := by
          intro hh
          apply h.1
          rw [hh]
          exact List.mem_map.mpr ⟨p, hp, rfl⟩
        simp [lookupSig, hne, ih hp (by simpa [sigKeys] using h.2)]

theorem nodup_sigKeys_extendAll (acc m : SigMap) (h : (sigKeys acc).Nodup) :
    (sigKeys (extendAll acc m)).Nodup := by
  induction m generalizing acc with
  | nil => exact h
  | cons p rest ih =>
      have hstep : extendAll acc (p :: rest) = extendAll (appendAt acc p.1 p.2) rest := rfl
      rw [hstep]
      exact ih _ (nodup_sigKeys_appendAt acc p.1 p.2 h)

theorem nodup_sigKeys_mergeMaps (maps : List SigMap) :
    (sigKeys (mergeMaps maps)).Nodup := by
  suffices h : ∀ acc, (sigKeys acc).Nodup →
      (sigKeys (maps.foldl extendAll acc)).Nodup from h [] (by simp [sigKeys])
  induction maps with
  | nil => intro acc h; exact h
  | cons m rest ih => intro acc h; exact ih _ (nodup_sigKeys_extendAll acc m h)

/-! ### Lemmas about the planning loop -/

theorem mem_planStep (output : Dir) (acc : List ImageRecord × List ImageRecord)
    (g : List ImageRecord) (f : ImageRecord)
    (hf : f ∈ (planStep output acc g).1 ∨ f ∈ (planStep output acc g).2) :
    f ∈ acc.1 ∨ f ∈ acc.2 ∨ f ∈ g := by
  cases g with
  | nil =>
      simp only [planStep] at hf
      tauto
  | cons r0 rs =>
      by_cases h : r0.parent = output
      · simp only [planStep, h, ne_eq, not_true_eq_false, if_neg, not_not] at hf
        · tauto
      · simp only [planStep, ne_eq, h, not_false_eq_true, if_pos,
          List.mem_append, List.mem_singleton, List.mem_cons] at hf
        rcases hf with (h1 | h1) | (h2 | h2)
        · exact Or.inl h1
        · rcases h1 with h1 | h1
          · exact Or.inr (Or.inr (by simp [h1]))
          · simp at h1
        · exact Or.inr (Or.inl h2)
        · exact Or.inr (Or.inr (List.mem_cons_of_mem r0 h2))

theorem mem_planMoves_aux (output : Dir) (m : SigMap) (f : ImageRecord) :
    ∀ acc, (f ∈ (m.foldl (fun a p => planStep output a p.2) acc).1 ∨
            f ∈ (m.foldl (fun a p => planStep output a p.2) acc).2) →
      (f ∈ acc.1 ∨ f ∈ acc.2) ∨ ∃ p ∈ m, f ∈ p.2 := by
  induction m with
  | nil =>
      intro acc h
      exact Or.inl (by simpa using h)
  | cons p rest ih =>
      intro acc h
      simp only [List.foldl_cons] at h
      rcases ih (planStep output acc p.2) h with h2 | h2
      · rcases mem_planStep output acc p.2 f h2 with h3 | h3 | h3
        · exact Or.inl (Or.inl h3)
        · exact Or.inl (Or.inr h3)
        · exact Or.inr ⟨p, List.mem_cons_self p rest, h3⟩
      · obtain ⟨q, hq, hfq⟩ := h2
        exact Or.inr ⟨q, List.mem_cons_of_mem p hq, hfq⟩

theorem mem_planMoves (output : Dir) (m : SigMap) (f : ImageRecord)
    (hf : f ∈ (planMoves output m).1 ∨ f ∈ (planMoves output m).2) :
    ∃ p ∈ m, f ∈ p.2 := by
  unfold planMoves at hf
  rcases mem_planMoves_aux output m f ([], []) hf with h | h
  · simp at h
  · exact h

theorem planMoves_foldl_skip (output_directory : Dir) (m : SigMap) :
    ∀ acc, (∀ p ∈ m, ∀ r ∈ p.2, r.parent = output_directory) →
      m.foldl (fun a p => planStep output_directory a p.2) acc = acc := by
  induction m with
  | nil => intro acc _; rfl
  | cons p rest ih =>
      intro acc hall
      simp only [List.foldl_cons]
      have hstep : planStep output_directory acc p.2 = acc := by
        cases hp2 : p.2 with
        | nil => rfl
        | cons r0 rs =>
            have hr0 : r0.parent = output_directory :=
              hall p (List.mem_cons_self p rest) r0
                (by rw [hp2]; exact List.mem_cons_self r0 rs)
            simp [planStep, hr0]
      rw [hstep]
      exact ih acc fun q hq => hall q (List.mem_cons_of_mem p hq)

/-! ### The claims -/

/-- Claim C1, counterexample: the claim asserts that for every group
`[r0, r1, ..., rn]` of size greater than 1 the planner schedules `r1 ... rn`
for deletion regardless of directories, *including when `r0` itself resides in
the output directory*.  On a group of size 2 whose first record lies in the
output directory, the planning loop of `main`
(`remove_duplicate_images.py:240-246`) schedules no deletion at all (and no
move): the `if to_move.parent != output_directory` guard skips the whole
group. -/
theorem C1_counterexample :
    planMoves "out" [(1, [⟨"out", "img", ".jpg"⟩, ⟨"dirB", "img", ".jpg"⟩])] =
      ([], []) := by
  rfl

/-- Claim C1, amended: for every group `[r0, r1, ..., rn]` of size greater
than 1 *whose first record `r0` does not reside in the output directory*, one
planning iteration appends exactly the one keep record `r0` to
`files_to_move` and all of `r1 ... rn` to `duplicate_files`, regardless of
which directory each of `r1 ... rn` resides in (including the output
directory); so such a group yields exactly one keep record and `n`
deletions. -/
theorem C1_amended_plan (output_directory : Dir)
    (acc : List ImageRecord × List ImageRecord) (r0 : ImageRecord)
    (rest : List ImageRecord) (h : r0.parent ≠ output_directory) :
    planStep output_directory acc (r0 :: rest) = (acc.1 ++ [r0], acc.2 ++ rest) ∧
    (planStep output_directory acc (r0 :: rest)).1.length = acc.1.length + 1 ∧
    (planStep output_directory acc (r0 :: rest)).2.length =
      acc.2.length + rest.length := by
  refine ⟨by simp [planStep, h], ?_, ?_⟩ <;> simp [planStep, h]

/-- Witness for the amended claim C1: a concrete group of size 3 with records
spread over three directories (one of them the output directory itself)
yields one keep record and two deletions. -/
theorem C1_amended_plan_witness :
    planStep "out" ([], []) [⟨"dirA", "img", ".jpg"⟩, ⟨"out", "img", ".jpg"⟩,
        ⟨"dirB", "img", ".jpg"⟩] =
      ([⟨"dirA", "img", ".jpg"⟩],
       [⟨"out", "img", ".jpg"⟩, ⟨"dirB", "img", ".jpg"⟩]) ∧
    (planStep "out" ([], []) [⟨"dirA", "img", ".jpg"⟩, ⟨"out", "img", ".jpg"⟩,
        ⟨"dirB", "img", ".jpg"⟩]).2.length = 2 := by
  have h := C1_amended_plan "out" ([], [])
    ⟨"dirA", "img", ".jpg"⟩ [⟨"out", "img", ".jpg"⟩, ⟨"dirB", "img", ".jpg"⟩]
    (by decide)
  exact ⟨by simpa using h.1, by simpa using h.2.2⟩

/-- Claim C2: the claim asserts that after a completed run every source
directory other than the resolved output directory is removed and the
resolved output directory itself is never removed.  The cleanup loop
(`remove_duplicate_images.py:270-274`) instead removes `dir_list[1:]`:
when the output directory is one of the supplied extra directories
(`main dirA dirB -o dirB`), `dir_list = [dirA, dirB]`, so the run removes
the resolved output directory `dirB` recursively and leaves the source
directory `dirA` in place — the code contradicts the documented purpose of
the output directory (it is destroyed together with the images just moved
into it). -/
theorem C2_output_directory_removed :
    (main ⟨5, "dirA", ["dirB"], some "dirB", fun _ => true, fun _ => true,
        fun _ => [], fun _ => none, fun _ => false, fun _ => false⟩).exitCode = 0 ∧
    (main ⟨5, "dirA", ["dirB"], some "dirB", fun _ => true, fun _ => true,
        fun _ => [], fun _ => none, fun _ => false, fun _ => false⟩).removedDirs =
      ["dirB"] := by
  exact ⟨rfl, rfl⟩

/-- Claim C3: the directory processing order is the resolved output directory
first (only if it is not already among the inputs), then the main directory,
then the remaining directories in caller-supplied order; and the merge is
sequential over this fixed order, so for every fingerprint the global list of
`images_id` is the concatenation of the per-directory lists in exactly that
order. -/
theorem C3_processing_order_and_merge (main_directory : Dir)
    (directories : List Dir) (output_directory : Dir)
    (fp : ImageRecord → Option Fingerprint) (listDir : Dir → List ImageRecord) :
    resolvedDirList main_directory directories output_directory =
      (if output_directory ∈ main_directory :: directories then []
       else [output_directory]) ++ main_directory :: directories ∧
    ∀ s, lookupSig (pipelineIndex fp listDir
          (resolvedDirList main_directory directories output_directory)) s =
      ((resolvedDirList main_directory directories output_directory).map fun d =>
        lookupSig (process_directory_images fp (listDir d)) s).flatten := by
  constructor
  · unfold resolvedDirList
    by_cases h : output_directory ∈ main_directory :: directories <;> simp [h]
  · intro s
    exact lookupSig_pipelineIndex fp listDir _ s

/-- Claim C4: with a deterministic fingerprint provider (modelled as the
function `fp`), two successfully fingerprinted images that were scanned end
in the same `SignatureGroup` of the merged index iff their fingerprints are
equal, and every successfully fingerprinted scanned image lies in exactly one
`SignatureGroup`. -/
theorem C4_grouping_iff (fp : ImageRecord → Option Fingerprint)
    (listDir : Dir → List ImageRecord) (dir_list : List Dir)
    (x y : ImageRecord) (sx sy : Fingerprint)
    (hx : fp x = some sx) (hy : fp y = some sy)
    (hxd : ∃ d ∈ dir_list, x ∈ listDir d) (hyd : ∃ d ∈ dir_list, y ∈ listDir d) :
    ((∃ s, x ∈ lookupSig (pipelineIndex fp listDir dir_list) s ∧
           y ∈ lookupSig (pipelineIndex fp listDir dir_list) s) ↔ sx = sy) ∧
    ∃! s, x ∈ lookupSig (pipelineIndex fp listDir dir_list) s := by
  refine ⟨⟨?_, ?_⟩, ?_⟩
  · rintro ⟨s, hxs, hys⟩
    rw [mem_lookupSig_pipelineIndex] at hxs hys
    have h1 : sx = s := Option.some.inj (hx.symm.trans hxs.1)
    have h2 : sy = s := Option.some.inj (hy.symm.trans hys.1)
    exact h1.trans h2.symm
  · intro hxy
    refine ⟨sx, ?_, ?_⟩
    · rw [mem_lookupSig_pipelineIndex]
      exact ⟨hx, hxd⟩
    · rw [mem_lookupSig_pipelineIndex]
      exact ⟨hxy ▸ hy, hyd⟩
  · refine ⟨sx, ?_, ?_⟩
    · show x ∈ lookupSig (pipelineIndex fp listDir dir_list) sx
      rw [mem_lookupSig_pipelineIndex]
      exact ⟨hx, hxd⟩
    · intro s hs
      simp only [mem_lookupSig_pipelineIndex] at hs
      exact Option.some.inj (hs.1.symm.trans hx)

/-- Witness for claim C4: with the sample provider, the `dirA` cat image and
the `dirB` cat image (equal fingerprints `1`) land in a common group, and the
`dirA` cat image lies in exactly one group. -/
theorem C4_grouping_iff_witness :
    ((∃ s, sampleRecA ∈ lookupSig (pipelineIndex sampleFp sampleListDir
            ["dirA", "dirB"]) s ∧
          sampleRecB ∈ lookupSig (pipelineIndex sampleFp sampleListDir
            ["dirA", "dirB"]) s) ↔ (1 : Fingerprint) = 1) ∧
    ∃! s, sampleRecA ∈ lookupSig (pipelineIndex sampleFp sampleListDir
        ["dirA", "dirB"]) s :=
  C4_grouping_iff sampleFp sampleListDir ["dirA", "dirB"] sampleRecA sampleRecB
    1 1 (by decide) (by decide)
    ⟨"dirA", by decide, by decide⟩ ⟨"dirB", by decide, by decide⟩

/-- Claim C5: a candidate file whose fingerprint computation raises (modelled
as `fp x = none`) is dropped: it appears in no group of the merged index, is
never scheduled for move or deletion by the planner, and the per-directory
scan of the remaining items is unaffected by its presence. -/
theorem C5_failed_item_dropped (fp : ImageRecord → Option Fingerprint)
    (listDir : Dir → List ImageRecord) (dir_list : List Dir)
    (output_directory : Dir) (x : ImageRecord) (hx : fp x = none) :
    (∀ s, x ∉ lookupSig (pipelineIndex fp listDir dir_list) s) ∧
    x ∉ (planMoves output_directory (pipelineIndex fp listDir dir_list)).1 ∧
    x ∉ (planMoves output_directory (pipelineIndex fp listDir dir_list)).2 ∧
    ∀ pre post, process_directory_images fp (pre ++ x :: post) =
      process_directory_images fp (pre ++ post) := by
  have hnotin : ∀ s, x ∉ lookupSig (pipelineIndex fp listDir dir_list) s := by
    intro s hmem
    rw [mem_lookupSig_pipelineIndex] at hmem
    rw [hx] at hmem
    exact Option.noConfusion hmem.1
  have hplan : ∀ hf : x ∈ (planMoves output_directory
        (pipelineIndex fp listDir dir_list)).1 ∨
      x ∈ (planMoves output_directory (pipelineIndex fp listDir dir_list)).2,
      False := by
    intro hf
    obtain ⟨p, hp, hxp⟩ :=
      mem_planMoves output_directory (pipelineIndex fp listDir dir_list) x hf
    have hlk : lookupSig (pipelineIndex fp listDir dir_list) p.1 = p.2 :=
      lookupSig_of_mem _ p hp (nodup_sigKeys_mergeMaps _)
    exact hnotin p.1 (hlk ▸ hxp)
  refine ⟨hnotin, fun h => hplan (Or.inl h), fun h => hplan (Or.inr h), ?_⟩
  intro pre post
  unfold process_directory_images
  rw [List.foldl_append, List.foldl_append, List.foldl_cons]
  congr 1
  simp [signStep, hx]

/-- Witness for claim C5: the unreadable sample file is absent from every
group, from `files_to_move` and from `duplicate_files`, and dropping it from
the scan of `dirA` changes nothing. -/
theorem C5_failed_item_dropped_witness :
    (∀ s, sampleRecBad ∉ lookupSig (pipelineIndex sampleFp sampleListDir
        ["dirA", "dirB"]) s) ∧
    sampleRecBad ∉ (planMoves "dirA"
      (pipelineIndex sampleFp sampleListDir ["dirA", "dirB"])).1 ∧
    sampleRecBad ∉ (planMoves "dirA"
      (pipelineIndex sampleFp sampleListDir ["dirA", "dirB"])).2 ∧
    ∀ pre post, process_directory_images sampleFp (pre ++ sampleRecBad :: post) =
      process_directory_images sampleFp (pre ++ post) :=
  C5_failed_item_dropped sampleFp sampleListDir ["dirA", "dirB"] "dirA"
    sampleRecBad (by decide)

/-- Claim C6: configuration errors are fatal and atomic — with fewer than two
directories (`argc < 3`) `main` returns `-1`, and when some supplied
directory does not exist it returns `-2`; in both cases no file-system
mutation occurs (nothing created, moved, deleted or removed). -/
theorem C6_config_errors_atomic (cfg : Config) :
    (cfg.argc < 3 → main cfg = ⟨-1, [], [], [], []⟩) ∧
    (3 ≤ cfg.argc →
      (∃ d ∈ cfg.main_directory :: cfg.directories, cfg.is_dir d = false) →
      main cfg = ⟨-2, [], [], [], []⟩) := by
  constructor
  · intro h
    simp [main, h]
  · intro h1 h2
    have hall : (cfg.main_directory :: cfg.directories).all cfg.is_dir = false := by
      rw [List.all_eq_false]
      obtain ⟨d, hd, hfd⟩ := h2
      exact ⟨d, hd, by simp [hfd]⟩
    have hlt : ¬ cfg.argc < 3 := by omega
    simp [main, hlt, hall]

/-- Witness for claim C6: a run with `argc = 2` exits `-1` with no mutation;
a run whose main directory does not exist exits `-2` with no mutation. -/
theorem C6_config_errors_atomic_witness :
    main ⟨2, "dirA", ["dirB"], none, fun _ => true, fun _ => true,
        fun _ => [], fun _ => none, fun _ => false, fun _ => false⟩ =
      ⟨-1, [], [], [], []⟩ ∧
    main ⟨3, "dirA", ["dirB"], none, fun _ => false, fun _ => true,
        fun _ => [], fun _ => none, fun _ => false, fun _ => false⟩ =
      ⟨-2, [], [], [], []⟩ :=
  ⟨(C6_config_errors_atomic _).1 (by decide),
   (C6_config_errors_atomic _).2 (by decide) ⟨"dirA", by decide, rfl⟩⟩

/-- Claim C7: the pipeline is idempotent on its own result — for every merged
index whose records all lie in the resolved output directory, the planning
phase schedules zero moves and zero deletions. -/
theorem C7_idempotent_plan (output_directory : Dir) (images_id : SigMap)
    (h : ∀ p ∈ images_id, ∀ r ∈ p.2, r.parent = output_directory) :
    planMoves output_directory images_id = ([], []) := by
  unfold planMoves
  exact planMoves_foldl_skip output_directory images_id ([], []) h

/-- Witness for claim C7: a concrete output-directory-only index with a
singleton group and a duplicate group plans zero moves and zero deletions. -/
theorem C7_idempotent_plan_witness :
    planMoves "out" [(1, [⟨"out", "a", ".jpg"⟩]),
      (2, [⟨"out", "b", ".jpg"⟩, ⟨"out", "c", ".jpg"⟩])] = ([], []) :=
  C7_idempotent_plan "out" _ (by decide)

/-- Claim C8: every run that passes configuration validation (enough
arguments, all supplied directories exist) and whose cleanup completes
returns exit code `0`, regardless of how many per-item fingerprint, move or
delete failures occurred (`cfg.fp`, `cfg.moveFails`, `cfg.deleteFails` are
arbitrary). -/
theorem C8_exit_zero (cfg : Config) (h1 : 3 ≤ cfg.argc)
    (h2 : (cfg.main_directory :: cfg.directories).all cfg.is_dir = true) :
    (main cfg).exitCode = 0 := by
  have hlt : ¬ cfg.argc < 3 := by omega
  simp [main, hlt, h2]

/-- Witness for claim C8: a run in which every fingerprint computation
raises and every move and delete fails still exits `0`. -/
theorem C8_exit_zero_witness :
    (main ⟨3, "dirA", ["dirB"], none, fun _ => true, fun _ => true,
        sampleListDir, fun _ => none, fun _ => true, fun _ => true⟩).exitCode
      = 0 :=
  C8_exit_zero _ (by decide) (by decide)

/-- Claim C9: in `move_file_to_dir`, when a file with the source's name
already exists in the destination directory and `replace` is false, the
source is first renamed in its own directory to its stem with a random
numeric suffix (`randint(0, 10)`, the extension kept) and only then moved to
the destination; when no such destination file exists, the source is moved
under its original name. -/
theorem C9_collision_rename (is_file : ImageRecord → Bool)
    (src_file : ImageRecord) (dst_dir : Dir) (rand : Nat) :
    (is_file ⟨dst_dir, src_file.stem, src_file.ext⟩ = true →
      move_file_to_dir is_file src_file dst_dir false rand =
        [MoveAction.rename src_file
           ⟨src_file.parent, src_file.stem ++ toString (rand % 11), src_file.ext⟩,
         MoveAction.move
           ⟨src_file.parent, src_file.stem ++ toString (rand % 11), src_file.ext⟩
           dst_dir]) ∧
    (is_file ⟨dst_dir, src_file.stem, src_file.ext⟩ = false →
      ∀ replace, move_file_to_dir is_file src_file dst_dir replace rand =
        [MoveAction.move src_file dst_dir]) := by
  constructor
  · intro h
    simp [move_file_to_dir, h]
  · intro h replace
    simp [move_file_to_dir, h]

/-- Witness for claim C9: moving `dirA/cat.jpg` into a directory that
already holds a `cat.jpg` (with `replace = false` and random draw 7) renames
it to `cat7.jpg` first; moving it into an empty directory keeps its name. -/
theorem C9_collision_rename_witness :
    move_file_to_dir (fun r => r.parent = "out") sampleRecA "out" false 7 =
      [MoveAction.rename sampleRecA ⟨"dirA", "cat7", ".jpg"⟩,
       MoveAction.move ⟨"dirA", "cat7", ".jpg"⟩ "out"] ∧
    move_file_to_dir (fun _ => false) sampleRecA "out" false 7 =
      [MoveAction.move sampleRecA "out"] :=
  ⟨by
    have h := (C9_collision_rename (fun r => decide (r.parent = "out"))
      sampleRecA "out" 7).1 (by decide)
    simpa [sampleRecA] using h,
   (C9_collision_rename (fun _ => false) sampleRecA "out" 7).2 rfl false⟩

/-- Claim C10: for every `SignatureGroup` whose first record's parent
directory equals the resolved output directory, the planning iteration
schedules no move and no deletion for any member of the group — the
accumulated `(files_to_move, duplicate_files)` pair is left untouched, even
for duplicate groups of size greater than 1. -/
theorem C10_group_in_output_skipped (output_directory : Dir)
    (acc : List ImageRecord × List ImageRecord) (r0 : ImageRecord)
    (rest : List ImageRecord) (h : r0.parent = output_directory) :
    planStep output_directory acc (r0 :: rest) = acc := by
  simp [planStep, h]

/-- Witness for claim C10: a concrete duplicate group of size 2 headed by a
record in the output directory adds nothing to the plan. -/
theorem C10_group_in_output_skipped_witness :
    planStep "out" ([], []) [⟨"out", "a", ".jpg"⟩, ⟨"dirB", "a", ".jpg"⟩] =
      ([], []) :=
  C10_group_in_output_skipped "out" ([], []) ⟨"out", "a", ".jpg"⟩
    [⟨"dirB", "a", ".jpg"⟩] rfl

end RemoveDuplicateImages
